import Mathlib

/-!
Shallow embedding of `bot-get-tickets-qa-v2.py`: a single-process polling
script that watches one board column of a work-item tracker and posts a
one-time message to a webhook for each newly observed item.

Remote HTTP calls are modelled as oracles (already-fetched data, or
`Except`-valued functions); Python exceptions become `Except` values; the
global `seen_ids` set becomes an explicitly threaded `Finset Nat`.
-/

namespace BotSlack

/-- Configuration constant `AZURE_ORG` from the script. -/
def AZURE_ORG : String := "WFRD-RDE-DWC-Software"

/-- Configuration constant `AZURE_PROJ` from the script. -/
def AZURE_PROJ : String := "OmniStack"

/-- Configuration constant `TEAM_NAME` from the script. -/
def TEAM_NAME : String := "WASP"

/-- Configuration constant `BOARD_NAME` from the script. -/
def BOARD_NAME : String := "Stories"

/-- Configuration constant `COLUMN_NAME` from the script. -/
def COLUMN_NAME : String := "Ready for QA"

/-- Configuration constant `POLL_INTERVAL` (seconds between checks). -/
def POLL_INTERVAL : Nat := 120

/-! ## Scope predicate builder (`get_team_area_predicate`) -/

/-- One entry of the team field values returned by the team-settings
endpoint. `value` is `v.get("value")` (absent key gives `none`),
`includeChildren` is the raw `includeChildren` key (absent gives `none`;
the script reads it with `v.get("includeChildren", False)`). -/
structure TeamFieldValue where
  value : Option String
  includeChildren : Option Bool
  deriving DecidableEq

/-- The inclusive-match WIQL clause the script emits for a path. -/
def underClause (path : String) : String :=
  "[System.AreaPath] UNDER '" ++ path ++ "'"

/-- The exact-match WIQL clause the script emits for a path. -/
def eqClause (path : String) : String :=
  "[System.AreaPath] = '" ++ path ++ "'"

/-- The project-scope fallback clause of `get_team_area_predicate`. -/
def projectFallback : String :=
  "[System.TeamProject] = '" ++ AZURE_PROJ ++ "'"

/-- The `parts` list built by the `for v in values` loop of
`get_team_area_predicate`: a path that is `None` or empty is skipped
(Python falsiness of `v.get("value")`); otherwise one clause is appended,
`UNDER` when `v.get("includeChildren", False)` is truthy, `=` otherwise. -/
def buildParts : List TeamFieldValue → List String
  | [] => []
  | v :: rest =>
    match v.value with
    | none => buildParts rest
    | some path =>
      if path = "" then buildParts rest
      else if v.includeChildren.getD false then
        underClause path :: buildParts rest
      else
        eqClause path :: buildParts rest

/-- `get_team_area_predicate`, with the HTTP fetch of the team field
values replaced by the `values` argument: empty `values` falls back to the
project clause, an empty `parts` list falls back likewise, and otherwise
the parts are joined with " OR " and wrapped in parentheses. -/
def get_team_area_predicate (values : List TeamFieldValue) : String :=
  if values = [] then projectFallback
  else
    let parts := buildParts values
    if parts = [] then projectFallback
    else "(" ++ String.intercalate " OR " parts ++ ")"

/-- Clause emission as the specification words it, for comparison with the
loop-built `buildParts`: an entry with a usable path yields the `UNDER`
clause when descendants are included and the `=` clause otherwise; an
entry without a usable path yields nothing. -/
def specClause (v : TeamFieldValue) : Option String :=
  match v.value with
  | none => none
  | some path =>
    if path = "" then none
    else if v.includeChildren.getD false then some (underClause path)
    else some (eqClause path)

/-! ## Board and column resolution -/

/-- One entry of a board (or column) listing: `name` is `b.get("name")`
(absent key gives `none`), `id` the entry's identifier. -/
structure BoardEntry where
  name : Option String
  id : Nat
  deriving DecidableEq

/-- Python `repr` of an optional name, as an f-string renders list
elements: `None` for a missing key, the text in single quotes otherwise
(names are plain words here, needing no escaping). -/
def pyReprOptStr : Option String → String
  | none => "None"
  | some s => "'" ++ s ++ "'"

/-- Python rendering of the list comprehension of names that the script
interpolates into its error messages. -/
def pyReprNameList (names : List (Option String)) : String :=
  "[" ++ String.intercalate ", " (names.map pyReprOptStr) ++ "]"

/-- `get_board_id_by_name`, with the fetched board list passed in: `next`
over the generator returns the first entry whose name equals the requested
name, and a missing match raises `RuntimeError` (modelled as the `.error`
branch) whose message lists the available names. The returned name is the
found entry's `board["name"]`, which equals the requested name by the
search condition. -/
def get_board_id_by_name (boards : List BoardEntry) (team board_name : String) :
    Except String (Nat × String) :=
  match boards.find? (fun b => b.name == some board_name) with
  | some b => .ok (b.id, board_name)
  | none => .error ("Board '" ++ board_name ++ "' not found for team '" ++ team ++
      "'. Available: " ++ pyReprNameList (boards.map (fun b => b.name)))

/-- `get_column_id_by_name`, with the fetched column list passed in; same
shape as the board lookup, with the board id in the error message. -/
def get_column_id_by_name (cols : List BoardEntry) (board_id : Nat) (column_name : String) :
    Except String (Nat × String) :=
  match cols.find? (fun c => c.name == some column_name) with
  | some c => .ok (c.id, column_name)
  | none => .error ("Column '" ++ column_name ++ "' not found on board id " ++
      toString board_id ++ ". Available: " ++ pyReprNameList (cols.map (fun c => c.name)))

/-! ## Transport client (`_request`) -/

/-- JSON values, for the parsed response bodies of the transport client. -/
inductive Json where
  | null
  | bool (b : Bool)
  | num (n : Int)
  | str (s : String)
  | arr (elems : List Json)
  | obj (fields : List (String × Json))

/-- The error `_request` propagates for an unsuccessful response: the
`requests.HTTPError` of `raise_for_status`, which carries the status code
and (through its attached response) the response body. -/
structure RequestError where
  status : Nat
  body : String
  deriving DecidableEq

/-- An HTTP response as `_request` observes it: status code, raw body
text (`resp.content`, empty string for no body), and the value
`resp.json()` parses when the body is non-empty. -/
structure HttpResponse where
  status : Nat
  content : String
  json : Json

/-- `resp.raise_for_status()`: `requests` raises `HTTPError` exactly for
client-error (4xx) and server-error (5xx) status codes. -/
def raise_for_status (r : HttpResponse) : Except RequestError Unit :=
  if 400 ≤ r.status ∧ r.status < 600 then .error ⟨r.status, r.content⟩ else .ok ()

/-- `_request`, with the network exchange replaced by the observed
response: raise for an error status, then return the parsed JSON body if
the body is non-empty and the empty object `{}` otherwise. -/
def _request (r : HttpResponse) : Except RequestError Json := do
  let _ ← raise_for_status r
  if r.content = "" then pure (Json.obj []) else pure r.json

/-! ## Poll loop (`__main__` while-loop) -/

/-- What the loop body extracts from a fetched work item:
`details["fields"].get("System.Title")` and
`details["_links"]["html"]["href"]`. A fetch (or extraction) that raises
is modelled by the fetch oracle returning an error instead. -/
structure Detail where
  title : Option String
  url : String
  deriving DecidableEq

/-- Observable events of one run of the loop, in program order: the WIQL
query call, an id added to `seen_ids`, a `get_work_item` call, a call of
`post_to_slack` with the formatted text, a logged warning or error line,
and the `time.sleep` at the bottom of the loop body. -/
inductive Event where
  | query
  | addSeen (wid : Nat)
  | fetchItem (wid : Nat)
  | notify (wid : Nat) (text : String)
  | logWarn (msg : String)
  | logError (msg : String)
  | sleep (seconds : Nat)
  deriving DecidableEq

/-- Python f-string rendering of an optional value (`None` when absent). -/
def pyStr : Option String → String
  | none => "None"
  | some s => s

/-- The message text the loop hands to `post_to_slack` for an item. -/
def slackText (wid : Nat) (d : Detail) : String :=
  ":excitedstar: *[" ++ TEAM_NAME ++ " · " ++ BOARD_NAME ++
    "] Ticket ready for testing:* <" ++ d.url ++ "|#" ++ toString wid ++
    " – " ++ pyStr d.title ++ ">"

/-- `post_to_slack`, with the webhook exchange replaced by a delivery
oracle. The `try` block catches every exception of the post: a failure
produces only a warning log line, and the function always returns. -/
def post_to_slack (deliver : String → Except String Unit) (text : String) : List Event :=
  match deliver text with
  | .ok _ => []
  | .error e => [.logWarn ("[warn] Slack post failed: " ++ e)]

/-- The remote world one cycle of the loop runs against: the outcome of
the WIQL query (the ids of the returned work items), the outcome of
`get_work_item` plus field extraction per id, and the outcome of the
webhook delivery per message text. -/
structure CycleEnv where
  queryResult : Except String (List Nat)
  fetch : Nat → Except String Detail
  deliver : String → Except String Unit

/-- The `for itm in items` body of the loop: a seen id is skipped; an
unseen id is first added to `seen_ids`, then fetched — a fetch error
aborts the iteration with the error and the still unvisited ids — and on
success the formatted text is handed to `post_to_slack`. Returns the
events in order, the updated seen set, and `some (error, remaining)` when
a fetch raised. -/
def processItems (fetch : Nat → Except String Detail)
    (deliver : String → Except String Unit) :
    List Nat → Finset Nat → List Event × Finset Nat × Option (String × List Nat)
  | [], seen => ([], seen, none)
  | wid :: rest, seen =>
    if wid ∈ seen then processItems fetch deliver rest seen
    else
      match fetch wid with
      | .error e => ([.addSeen wid, .fetchItem wid], insert wid seen, some (e, rest))
      | .ok d =>
        let text := slackText wid d
        let r := processItems fetch deliver rest (insert wid seen)
        (.addSeen wid :: .fetchItem wid :: .notify wid text ::
            (post_to_slack deliver text ++ r.1),
          r.2.1, r.2.2)

/-- One iteration of the `while True` loop: the `try` block runs the query
and the item loop, any exception is caught and printed as an error line,
and `time.sleep(POLL_INTERVAL)` runs unconditionally at the end. Returns
the updated seen set and the iteration's events. -/
def runCycle (env : CycleEnv) (seen : Finset Nat) : Finset Nat × List Event :=
  match env.queryResult with
  | .error e =>
    (seen, [.query, .logError ("[error] " ++ e), .sleep POLL_INTERVAL])
  | .ok items =>
    let r := processItems env.fetch env.deliver items seen
    match r.2.2 with
    | none => (r.2.1, .query :: (r.1 ++ [.sleep POLL_INTERVAL]))
    | some pe =>
      (r.2.1, .query :: (r.1 ++ [.logError ("[error] " ++ pe.1), .sleep POLL_INTERVAL]))

/-- A finite prefix of the infinite loop: one cycle per environment, the
seen set threaded through, the event traces concatenated. -/
def runLoop : List CycleEnv → Finset Nat → Finset Nat × List Event
  | [], seen => (seen, [])
  | env :: rest, seen =>
    let r1 := runCycle env seen
    let r2 := runLoop rest r1.1
    (r2.1, r1.2 ++ r2.2)

/-! ## Trace observations -/

/-- Whether an event is the WIQL query call. -/
def isQuery : Event → Bool
  | .query => true
  | _ => false

/-- Whether an event is a `get_work_item` call. -/
def isFetch : Event → Bool
  | .fetchItem _ => true
  | _ => false

/-- Whether an event is a `post_to_slack` call for the given id. -/
def isNotifyOf (wid : Nat) : Event → Bool
  | .notify w _ => w == wid
  | _ => false

/-- Whether an event is a `post_to_slack` call. -/
def isNotify : Event → Bool
  | .notify _ _ => true
  | _ => false

/-- How many times a trace hands the given id to the notifier. -/
def notifyCount (wid : Nat) (tr : List Event) : Nat :=
  tr.countP (isNotifyOf wid)

/-- A trace in which every two query events have a full poll-interval
sleep strictly between them. -/
def sleepBetweenQueries (tr : List Event) : Prop :=
  ∀ a b c, tr = a ++ (Event.query :: (b ++ Event.query :: c)) →
    Event.sleep POLL_INTERVAL ∈ b

/-- Whether an event is a logged error line of the cycle-level handler. -/
def isError : Event → Bool
  | .logError _ => true
  | _ => false

/-- Traces made of whole loop iterations: each starts with its query and
ends with the full poll-interval sleep, with no further query between. -/
inductive CycleShapedTrace : List Event → Prop
  | nil : CycleShapedTrace []
  | cons (mid rest : List Event) (hq : Event.query ∉ mid) (h : CycleShapedTrace rest) :
      CycleShapedTrace (Event.query :: mid ++ Event.sleep POLL_INTERVAL :: rest)

/-- Concrete work-item details used by the scenario environments. -/
def demoDetail : Detail := ⟨some "Demo title", "https://tracker/item"⟩

/-- Scenario environment: the query returns ids 101 and 102, every fetch
and every delivery succeeds. -/
def envTwoItems : CycleEnv :=
  ⟨.ok [101, 102], fun _ => .ok demoDetail, fun _ => .ok ()⟩

/-- Scenario environment: the query itself raises. -/
def envQueryError : CycleEnv :=
  ⟨.error "503 Server Error", fun _ => .ok demoDetail, fun _ => .ok ()⟩

/-- Scenario environment: the query returns ids 7, 8 and 9, and the fetch
of id 8 raises. -/
def envFetchError : CycleEnv :=
  ⟨.ok [7, 8, 9], fun w => if w = 8 then .error "fetch boom" else .ok demoDetail,
    fun _ => .ok ()⟩

/-- Scenario environment: one new item whose webhook delivery times out. -/
def envTimeout : CycleEnv :=
  ⟨.ok [7], fun _ => .ok demoDetail, fun _ => .error "timed out"⟩


/-! ## Lemmas: scope predicate builder -/

lemma buildParts_eq_filterMap (vs : List TeamFieldValue) :
    buildParts vs = vs.filterMap specClause := by
  induction vs with
  | nil => simp [buildParts]
  | cons v rest ih =>
    cases hv : v.value with
    | none => simp [buildParts, specClause, hv, ih]
    | some path =>
      by_cases hp : path = ""
      · simp [buildParts, specClause, hv, hp, ih]
      · by_cases hc : v.includeChildren.getD false
        · simp [buildParts, specClause, hv, hp, hc, ih]
        · simp [buildParts, specClause, hv, hp, hc, ih]

lemma intercalate_single (s x : String) : String.intercalate s [x] = x := rfl

lemma paren_ne_empty (s : String) : "(" ++ s ++ ")" ≠ "" := by
  intro h
  have h1 := congrArg String.length h
  simp [String.length_append] at h1
  exact absurd h1.1.1 (by decide)

lemma pred_ne_empty (vs : List TeamFieldValue) : get_team_area_predicate vs ≠ "" := by
  unfold get_team_area_predicate
  by_cases h : vs = []
  · simp [h, projectFallback]
    decide
  · simp [h]
    by_cases hp : buildParts vs = []
    · simp [hp, projectFallback]
      decide
    · simp [hp]
      exact paren_ne_empty _

/-! ## Lemmas: poll-loop model -/
lemma processItems_cons_seen {f : Nat → Except String Detail} {d : String → Except String Unit}
    {wid : Nat} {rest : List Nat} {seen : Finset Nat} (hw : wid ∈ seen) :
    processItems f d (wid :: rest) seen = processItems f d rest seen := by
  simp [processItems, hw]

lemma processItems_cons_err {f : Nat → Except String Detail} {d : String → Except String Unit}
    {wid : Nat} {rest : List Nat} {seen : Finset Nat} {e : String}
    (hw : wid ∉ seen) (hf : f wid = .error e) :
    processItems f d (wid :: rest) seen =
      ([.addSeen wid, .fetchItem wid], insert wid seen, some (e, rest)) := by
  simp [processItems, hw, hf]

lemma processItems_cons_ok {f : Nat → Except String Detail} {d : String → Except String Unit}
    {wid : Nat} {rest : List Nat} {seen : Finset Nat} {dt : Detail}
    (hw : wid ∉ seen) (hf : f wid = .ok dt) :
    processItems f d (wid :: rest) seen =
      (Event.addSeen wid :: Event.fetchItem wid ::
          Event.notify wid (slackText wid dt) ::
          (post_to_slack d (slackText wid dt) ++ (processItems f d rest (insert wid seen)).1),
        (processItems f d rest (insert wid seen)).2.1,
        (processItems f d rest (insert wid seen)).2.2) := by
  simp [processItems, hw, hf]

lemma post_to_slack_shape (d : String → Except String Unit) (text : String) :
    post_to_slack d text = [] ∨
      ∃ w, post_to_slack d text = [Event.logWarn ("[warn] Slack post failed: " ++ w)] := by
  unfold post_to_slack
  cases d text with
  | ok _ => exact Or.inl rfl
  | error e => exact Or.inr ⟨e, rfl⟩

lemma mem_post_to_slack {d : String → Except String Unit} {text : String} {e : Event}
    (h : e ∈ post_to_slack d text) : ∃ m, e = Event.logWarn m := by
  rcases post_to_slack_shape d text with hs | ⟨w, hs⟩ <;> rw [hs] at h
  · simp at h
  · simp at h
    exact ⟨_, h⟩

lemma split_append_cons {α : Type} (x : α) :
    ∀ (t1 : List α) (l1 l2 t2 : List α), l1 ++ l2 = t1 ++ x :: t2 →
      (∃ u, l1 = t1 ++ x :: u) ∨ (∃ v, t1 = l1 ++ v ∧ l2 = v ++ x :: t2) := by
  intro t1
  induction t1 with
  | nil =>
    intro l1 l2 t2 h
    cases l1 with
    | nil => exact Or.inr ⟨[], rfl, h⟩
    | cons y l1 =>
      simp at h
      exact Or.inl ⟨l1, by simp [h.1, h.2]⟩
  | cons z t1 ih =>
    intro l1 l2 t2 h
    cases l1 with
    | nil => exact Or.inr ⟨z :: t1, rfl, h⟩
    | cons y l1 =>
      simp at h
      rcases ih l1 l2 t2 h.2 with ⟨u, hu⟩ | ⟨v, hv1, hv2⟩
      · exact Or.inl ⟨u, by simp [h.1, hu]⟩
      · exact Or.inr ⟨v, by simp [h.1, hv1], hv2⟩

lemma processItems_mono {f : Nat → Except String Detail} {d : String → Except String Unit} :
    ∀ (items : List Nat) (seen : Finset Nat),
      seen ⊆ (processItems f d items seen).2.1 := by
  intro items
  induction items with
  | nil => intro seen; simp [processItems]
  | cons wid rest ih =>
    intro seen
    by_cases hw : wid ∈ seen
    · rw [processItems_cons_seen hw]; exact ih seen
    · cases hf : f wid with
      | error e =>
        rw [processItems_cons_err hw hf]
        exact Finset.subset_insert _ _
      | ok dt =>
        rw [processItems_cons_ok hw hf]
        exact (Finset.subset_insert _ _).trans (ih (insert wid seen))

lemma processItems_event_forms {f : Nat → Except String Detail} {d : String → Except String Unit} :
    ∀ (items : List Nat) (seen : Finset Nat) (e : Event),
      e ∈ (processItems f d items seen).1 →
      (∃ w, e = Event.addSeen w) ∨ (∃ w, e = Event.fetchItem w) ∨
      (∃ w t, e = Event.notify w t) ∨ (∃ m, e = Event.logWarn m) := by
  intro items
  induction items with
  | nil => intro seen e he; simp [processItems] at he
  | cons wid rest ih =>
    intro seen e he
    by_cases hw : wid ∈ seen
    · rw [processItems_cons_seen hw] at he; exact ih seen e he
    · cases hf : f wid with
      | error er =>
        rw [processItems_cons_err hw hf] at he
        simp at he
        rcases he with h | h
        · exact Or.inl ⟨wid, h⟩
        · exact Or.inr (Or.inl ⟨wid, h⟩)
      | ok dt =>
        rw [processItems_cons_ok hw hf] at he
        simp at he
        rcases he with h | h | h | h | h
        · exact Or.inl ⟨wid, h⟩
        · exact Or.inr (Or.inl ⟨wid, h⟩)
        · exact Or.inr (Or.inr (Or.inl ⟨wid, _, h⟩))
        · rcases mem_post_to_slack h with ⟨m, hm⟩
          exact Or.inr (Or.inr (Or.inr ⟨m, hm⟩))
        · exact ih (insert wid seen) e h

lemma processItems_err_remainder {f : Nat → Except String Detail}
    {d : String → Except String Unit} :
    ∀ (items : List Nat) (seen : Finset Nat) (e : String) (rem : List Nat),
      (processItems f d items seen).2.2 = some (e, rem) →
      ∃ pre, items = pre ++ rem ∧
        (processItems f d items seen).2.1 ⊆ seen ∪ pre.toFinset := by
  intro items
  induction items with
  | nil => intro seen e rem h; simp [processItems] at h
  | cons wid rest ih =>
    intro seen e rem h
    by_cases hw : wid ∈ seen
    · rw [processItems_cons_seen hw] at h ⊢
      rcases ih seen e rem h with ⟨pre, hpre, hsub⟩
      refine ⟨wid :: pre, by simp [hpre], hsub.trans ?_⟩
      intro x hx
      simp at hx ⊢
      tauto
    · cases hf : f wid with
      | error er =>
        rw [processItems_cons_err hw hf] at h ⊢
        simp at h
        refine ⟨[wid], by simp [h.2], ?_⟩
        intro x hx
        simp at hx ⊢
        tauto
      | ok dt =>
        rw [processItems_cons_ok hw hf] at h ⊢
        rcases ih (insert wid seen) e rem h with ⟨pre, hpre, hsub⟩
        refine ⟨wid :: pre, by simp [hpre], hsub.trans ?_⟩
        intro x hx
        simp at hx ⊢
        tauto

lemma processItems_no_notify_of_seen {f : Nat → Except String Detail}
    {d : String → Except String Unit} :
    ∀ (items : List Nat) (seen : Finset Nat) (wid : Nat) (text : String),
      wid ∈ seen → Event.notify wid text ∉ (processItems f d items seen).1 := by
  intro items
  induction items with
  | nil => intro seen wid text hw; simp [processItems]
  | cons w0 rest ih =>
    intro seen wid text hw
    by_cases h0 : w0 ∈ seen
    · rw [processItems_cons_seen h0]; exact ih seen wid text hw
    · cases hf : f w0 with
      | error er =>
        rw [processItems_cons_err h0 hf]
        simp
      | ok dt =>
        rw [processItems_cons_ok h0 hf]
        intro hmem
        simp at hmem
        rcases hmem with ⟨hww, -⟩ | h | h
        · exact h0 (hww ▸ hw)
        · rcases mem_post_to_slack h with ⟨m, hm⟩
          exact Event.noConfusion hm
        · exact ih (insert w0 seen) wid text (Finset.mem_insert_of_mem hw) h

@[simp] lemma isNotifyOf_query (wid : Nat) : isNotifyOf wid Event.query = false := rfl

@[simp] lemma isNotifyOf_addSeen (wid w : Nat) : isNotifyOf wid (Event.addSeen w) = false := rfl

@[simp] lemma isNotifyOf_fetchItem (wid w : Nat) :
    isNotifyOf wid (Event.fetchItem w) = false := rfl

@[simp] lemma isNotifyOf_notify (wid w : Nat) (t : String) :
    isNotifyOf wid (Event.notify w t) = (w == wid) := rfl

@[simp] lemma isNotifyOf_logWarn (wid : Nat) (m : String) :
    isNotifyOf wid (Event.logWarn m) = false := rfl

@[simp] lemma isNotifyOf_logError (wid : Nat) (m : String) :
    isNotifyOf wid (Event.logError m) = false := rfl

@[simp] lemma isNotifyOf_sleep (wid s : Nat) : isNotifyOf wid (Event.sleep s) = false := rfl

lemma isNotifyOf_eq_true {wid : Nat} {e : Event} (h : isNotifyOf wid e = true) :
    ∃ t, e = Event.notify wid t := by
  cases e <;> simp at h
  subst h
  exact ⟨_, rfl⟩

lemma notifyCount_post_to_slack (wid : Nat) (d : String → Except String Unit) (text : String) :
    notifyCount wid (post_to_slack d text) = 0 := by
  rcases post_to_slack_shape d text with hs | ⟨w, hs⟩ <;> simp [notifyCount, hs]

lemma notifyCount_zero_of_seen {f : Nat → Except String Detail}
    {d : String → Except String Unit} (items : List Nat) (seen : Finset Nat) (wid : Nat)
    (hw : wid ∈ seen) : notifyCount wid (processItems f d items seen).1 = 0 := by
  rw [notifyCount, List.countP_eq_zero]
  intro e he hp
  rcases isNotifyOf_eq_true hp with ⟨t, rfl⟩
  exact processItems_no_notify_of_seen items seen wid t hw he

lemma notifyCount_cons (wid : Nat) (e : Event) (l : List Event) :
    notifyCount wid (e :: l) = notifyCount wid l + if isNotifyOf wid e then 1 else 0 :=
  List.countP_cons _ _ _

lemma notifyCount_append (wid : Nat) (l1 l2 : List Event) :
    notifyCount wid (l1 ++ l2) = notifyCount wid l1 + notifyCount wid l2 :=
  List.countP_append _ _ _

lemma processItems_notifyCount {f : Nat → Except String Detail}
    {d : String → Except String Unit} :
    ∀ (items : List Nat) (seen : Finset Nat) (wid : Nat),
      notifyCount wid (processItems f d items seen).1 ≤ 1 ∧
      (1 ≤ notifyCount wid (processItems f d items seen).1 →
        wid ∈ (processItems f d items seen).2.1) := by
  intro items
  induction items with
  | nil => intro seen wid; simp [processItems, notifyCount]
  | cons w0 rest ih =>
    intro seen wid
    by_cases h0 : w0 ∈ seen
    · rw [processItems_cons_seen h0]; exact ih seen wid
    · cases hf : f w0 with
      | error er =>
        rw [processItems_cons_err h0 hf]
        simp [notifyCount]
      | ok dt =>
        rw [processItems_cons_ok h0 hf]
        have hblock : notifyCount wid (Event.addSeen w0 :: Event.fetchItem w0 ::
            Event.notify w0 (slackText w0 dt) ::
            (post_to_slack d (slackText w0 dt) ++
              (processItems f d rest (insert w0 seen)).1)) =
            notifyCount wid (processItems f d rest (insert w0 seen)).1 +
              if w0 = wid then 1 else 0 := by
          rw [notifyCount_cons, notifyCount_cons, notifyCount_cons, notifyCount_append,
            notifyCount_post_to_slack]
          simp [beq_iff_eq]
        rw [hblock]
        by_cases hww : w0 = wid
        · subst hww
          have hz : notifyCount w0 (processItems f d rest (insert w0 seen)).1 = 0 :=
            notifyCount_zero_of_seen rest (insert w0 seen) w0 (Finset.mem_insert_self w0 seen)
          rw [hz]
          exact ⟨by simp, fun _ =>
            processItems_mono rest (insert w0 seen) (Finset.mem_insert_self w0 seen)⟩
        · simp [hww]
          exact ih (insert w0 seen) wid


lemma processItems_notify_after_add {f : Nat → Except String Detail}
    {d : String → Except String Unit} :
    ∀ (items : List Nat) (seen : Finset Nat) (wid : Nat) (text : String)
      (t1 t2 : List Event),
      (processItems f d items seen).1 = t1 ++ Event.notify wid text :: t2 →
      Event.addSeen wid ∈ t1 := by
  intro items
  induction items with
  | nil =>
    intro seen wid text t1 t2 h
    simp [processItems] at h
  | cons w0 rest ih =>
    intro seen wid text t1 t2 h
    by_cases h0 : w0 ∈ seen
    · rw [processItems_cons_seen h0] at h; exact ih seen wid text t1 t2 h
    · cases hf : f w0 with
      | error er =>
        rw [processItems_cons_err h0 hf] at h
        cases t1 with
        | nil => simp at h
        | cons a t1 =>
          simp at h
          cases t1 with
          | nil => simp at h
          | cons b t1 =>
            simp at h
      | ok dt =>
        rw [processItems_cons_ok h0 hf] at h
        cases t1 with
        | nil => simp at h
        | cons a t1 =>
          rw [List.cons_append] at h
          injection h with ha h
          cases t1 with
          | nil => simp at h
          | cons b t1 =>
            rw [List.cons_append] at h
            injection h with hb h
            cases t1 with
            | nil =>
              simp at h
              subst ha
              simp [h.1.1]
            | cons c t1 =>
              rw [List.cons_append] at h
              injection h with hc h
              rcases split_append_cons (Event.notify wid text) t1 _ _ t2 h with
                ⟨u, hu⟩ | ⟨v, hv1, hv2⟩
              · have : Event.notify wid text ∈ post_to_slack d (slackText w0 dt) := by
                  rw [hu]
                  simp
                rcases mem_post_to_slack this with ⟨m, hm⟩
                exact Event.noConfusion hm
              · have := ih (insert w0 seen) wid text v t2 hv2
                subst hv1
                simp [this]

lemma runCycle_err {env : CycleEnv} {e : String} (seen : Finset Nat)
    (h : env.queryResult = .error e) :
    runCycle env seen =
      (seen, [.query, .logError ("[error] " ++ e), .sleep POLL_INTERVAL]) := by
  simp [runCycle, h]

lemma runCycle_ok_none {env : CycleEnv} {items : List Nat} (seen : Finset Nat)
    (h : env.queryResult = .ok items)
    (h2 : (processItems env.fetch env.deliver items seen).2.2 = none) :
    runCycle env seen =
      ((processItems env.fetch env.deliver items seen).2.1,
        .query :: ((processItems env.fetch env.deliver items seen).1 ++
          [.sleep POLL_INTERVAL])) := by
  simp [runCycle, h, h2]

lemma runCycle_ok_some {env : CycleEnv} {items : List Nat} {pe : String × List Nat}
    (seen : Finset Nat) (h : env.queryResult = .ok items)
    (h2 : (processItems env.fetch env.deliver items seen).2.2 = some pe) :
    runCycle env seen =
      ((processItems env.fetch env.deliver items seen).2.1,
        .query :: ((processItems env.fetch env.deliver items seen).1 ++
          [.logError ("[error] " ++ pe.1), .sleep POLL_INTERVAL])) := by
  simp [runCycle, h, h2]

lemma runCycle_cases (env : CycleEnv) (seen : Finset Nat) :
    (∃ e, env.queryResult = .error e ∧
      runCycle env seen =
        (seen, [.query, .logError ("[error] " ++ e), .sleep POLL_INTERVAL])) ∨
    (∃ items tail, env.queryResult = .ok items ∧
      runCycle env seen =
        ((processItems env.fetch env.deliver items seen).2.1,
          .query :: ((processItems env.fetch env.deliver items seen).1 ++ tail)) ∧
      (∀ wid text, Event.notify wid text ∉ tail) ∧
      Event.query ∉ tail ∧
      tail.getLast? = some (Event.sleep POLL_INTERVAL)) := by
  cases hq : env.queryResult with
  | error e => exact Or.inl ⟨e, rfl, runCycle_err seen hq⟩
  | ok items =>
    cases h2 : (processItems env.fetch env.deliver items seen).2.2 with
    | none =>
      refine Or.inr ⟨items, [.sleep POLL_INTERVAL], rfl, runCycle_ok_none seen hq h2,
        ?_, ?_, rfl⟩ <;> simp
    | some pe =>
      refine Or.inr ⟨items, [.logError ("[error] " ++ pe.1), .sleep POLL_INTERVAL], rfl,
        runCycle_ok_some seen hq h2, ?_, ?_, rfl⟩ <;> simp

lemma runCycle_mono (env : CycleEnv) (seen : Finset Nat) : seen ⊆ (runCycle env seen).1 := by
  rcases runCycle_cases env seen with ⟨e, hq, hr⟩ | ⟨items, tail, hq, hr, -, -, -⟩
  · rw [hr]
  · rw [hr]
    exact processItems_mono items seen


@[simp] lemma isQuery_query : isQuery Event.query = true := rfl

@[simp] lemma isQuery_addSeen (w : Nat) : isQuery (Event.addSeen w) = false := rfl

@[simp] lemma isQuery_fetchItem (w : Nat) : isQuery (Event.fetchItem w) = false := rfl

@[simp] lemma isQuery_notify (w : Nat) (t : String) : isQuery (Event.notify w t) = false := rfl

@[simp] lemma isQuery_logWarn (m : String) : isQuery (Event.logWarn m) = false := rfl

@[simp] lemma isQuery_logError (m : String) : isQuery (Event.logError m) = false := rfl

@[simp] lemma isQuery_sleep (s : Nat) : isQuery (Event.sleep s) = false := rfl

lemma isQuery_eq_true {e : Event} (h : isQuery e = true) : e = Event.query := by
  cases e <;> simp at h ⊢

lemma processItems_no_query {f : Nat → Except String Detail}
    {d : String → Except String Unit} (items : List Nat) (seen : Finset Nat) :
    Event.query ∉ (processItems f d items seen).1 := by
  intro h
  rcases processItems_event_forms items seen _ h with ⟨w, hw⟩ | ⟨w, hw⟩ | ⟨w, t, hw⟩ | ⟨m, hw⟩ <;>
    exact Event.noConfusion hw

lemma processItems_queryCount {f : Nat → Except String Detail}
    {d : String → Except String Unit} (items : List Nat) (seen : Finset Nat) :
    (processItems f d items seen).1.countP isQuery = 0 := by
  rw [List.countP_eq_zero]
  intro e he hp
  exact processItems_no_query items seen (isQuery_eq_true hp ▸ he)

lemma runCycle_queryCount (env : CycleEnv) (seen : Finset Nat) :
    (runCycle env seen).2.countP isQuery = 1 := by
  rcases runCycle_cases env seen with ⟨e, hq, hr⟩ | ⟨items, tail, hq, hr, -, hqt, -⟩
  · rw [hr]; simp
  · rw [hr]
    have ht : tail.countP isQuery = 0 := by
      rw [List.countP_eq_zero]
      intro e he hp
      exact hqt (isQuery_eq_true hp ▸ he)
    simp [List.countP_cons, List.countP_append, processItems_queryCount, ht]

lemma runCycle_shape (env : CycleEnv) (seen : Finset Nat) :
    ∃ mid, (runCycle env seen).2 = Event.query :: mid ++ [Event.sleep POLL_INTERVAL] ∧
      Event.query ∉ mid := by
  cases hq : env.queryResult with
  | error e =>
    exact ⟨[.logError ("[error] " ++ e)], by rw [runCycle_err seen hq]; simp, by simp⟩
  | ok items =>
    cases h2 : (processItems env.fetch env.deliver items seen).2.2 with
    | none =>
      refine ⟨(processItems env.fetch env.deliver items seen).1,
        by rw [runCycle_ok_none seen hq h2]; simp, processItems_no_query items seen⟩
    | some pe =>
      refine ⟨(processItems env.fetch env.deliver items seen).1 ++
          [.logError ("[error] " ++ pe.1)], by rw [runCycle_ok_some seen hq h2]; simp, ?_⟩
      simp [processItems_no_query items seen]

lemma runCycle_notifyCount (env : CycleEnv) (seen : Finset Nat) (wid : Nat) :
    notifyCount wid (runCycle env seen).2 ≤ 1 ∧
    (wid ∈ seen → notifyCount wid (runCycle env seen).2 = 0) ∧
    (1 ≤ notifyCount wid (runCycle env seen).2 → wid ∈ (runCycle env seen).1) := by
  rcases runCycle_cases env seen with ⟨e, hq, hr⟩ | ⟨items, tail, hq, hr, hnt, -, -⟩
  · rw [hr]
    simp [notifyCount]
  · rw [hr]
    have ht : notifyCount wid tail = 0 := by
      rw [notifyCount, List.countP_eq_zero]
      intro e he hp
      rcases isNotifyOf_eq_true hp with ⟨t, rfl⟩
      exact hnt wid t he
    have hc : notifyCount wid (Event.query ::
        ((processItems env.fetch env.deliver items seen).1 ++ tail)) =
        notifyCount wid (processItems env.fetch env.deliver items seen).1 := by
      rw [notifyCount_cons, notifyCount_append, ht]
      simp
    rw [hc]
    refine ⟨(processItems_notifyCount items seen wid).1, ?_,
      (processItems_notifyCount items seen wid).2⟩
    intro hw
    exact notifyCount_zero_of_seen items seen wid hw

lemma runCycle_no_notify_of_seen (env : CycleEnv) (seen : Finset Nat) (wid : Nat)
    (text : String) (hw : wid ∈ seen) : Event.notify wid text ∉ (runCycle env seen).2 := by
  intro h
  have hz := (runCycle_notifyCount env seen wid).2.1 hw
  rw [notifyCount, List.countP_eq_zero] at hz
  have := hz _ h
  simp at this

lemma runCycle_notify_mem_seen (env : CycleEnv) (seen : Finset Nat) (wid : Nat)
    (text : String) (h : Event.notify wid text ∈ (runCycle env seen).2) :
    wid ∈ (runCycle env seen).1 := by
  apply (runCycle_notifyCount env seen wid).2.2
  have : 0 < notifyCount wid (runCycle env seen).2 := by
    rw [notifyCount, List.countP_pos_iff]
    exact ⟨_, h, by simp⟩
  omega

lemma runCycle_notify_after_add (env : CycleEnv) (seen : Finset Nat) (wid : Nat)
    (text : String) (t1 t2 : List Event)
    (h : (runCycle env seen).2 = t1 ++ Event.notify wid text :: t2) :
    Event.addSeen wid ∈ t1 := by
  rcases runCycle_cases env seen with ⟨e, hq, hr⟩ | ⟨items, tail, hq, hr, hnt, -, -⟩
  · rw [hr] at h
    have hmem : Event.notify wid text ∈ t1 ++ Event.notify wid text :: t2 := by simp
    rw [← h] at hmem
    simp at hmem
  · rw [hr] at h
    cases t1 with
    | nil => simp at h
    | cons a t1 =>
      rw [List.cons_append] at h
      injection h with ha h
      rcases split_append_cons (Event.notify wid text) t1 _ _ t2 h with
        ⟨u, hu⟩ | ⟨v, hv1, hv2⟩
      · have := processItems_notify_after_add items seen wid text t1 u hu
        simp [this]
      · exact absurd (by rw [hv2]; simp : Event.notify wid text ∈ tail) (by
          intro hmem
          exact hnt wid text hmem)

lemma runLoop_cons (env : CycleEnv) (rest : List CycleEnv) (seen : Finset Nat) :
    runLoop (env :: rest) seen =
      ((runLoop rest (runCycle env seen).1).1,
        (runCycle env seen).2 ++ (runLoop rest (runCycle env seen).1).2) := rfl

lemma runLoop_mono : ∀ (envs : List CycleEnv) (seen : Finset Nat),
    seen ⊆ (runLoop envs seen).1 := by
  intro envs
  induction envs with
  | nil => intro seen; simp [runLoop]
  | cons env rest ih =>
    intro seen
    rw [runLoop_cons]
    exact (runCycle_mono env seen).trans (ih (runCycle env seen).1)

lemma runLoop_queryCount : ∀ (envs : List CycleEnv) (seen : Finset Nat),
    (runLoop envs seen).2.countP isQuery = envs.length := by
  intro envs
  induction envs with
  | nil => intro seen; simp [runLoop]
  | cons env rest ih =>
    intro seen
    rw [runLoop_cons]
    simp [List.countP_append, runCycle_queryCount, ih]
    omega

lemma runLoop_notifyCount : ∀ (envs : List CycleEnv) (seen : Finset Nat) (wid : Nat),
    notifyCount wid (runLoop envs seen).2 ≤ 1 ∧
    (wid ∈ seen → notifyCount wid (runLoop envs seen).2 = 0) := by
  intro envs
  induction envs with
  | nil => intro seen wid; simp [runLoop, notifyCount]
  | cons env rest ih =>
    intro seen wid
    rw [runLoop_cons]
    simp only [notifyCount_append]
    constructor
    · rcases Nat.eq_zero_or_pos (notifyCount wid (runCycle env seen).2) with hz | hp
      · rw [hz]
        simpa using (ih (runCycle env seen).1 wid).1
      · have h1 : notifyCount wid (runCycle env seen).2 = 1 := by
          have := (runCycle_notifyCount env seen wid).1
          omega
        have hseen : wid ∈ (runCycle env seen).1 :=
          (runCycle_notifyCount env seen wid).2.2 (by omega)
        have h2 := (ih (runCycle env seen).1 wid).2 hseen
        omega
    · intro hw
      have h1 := (runCycle_notifyCount env seen wid).2.1 hw
      have h2 := (ih (runCycle env seen).1 wid).2 ((runCycle_mono env seen) hw)
      omega
lemma runLoop_shape : ∀ (envs : List CycleEnv) (seen : Finset Nat),
    CycleShapedTrace (runLoop envs seen).2 := by
  intro envs
  induction envs with
  | nil => intro seen; exact CycleShapedTrace.nil
  | cons env rest ih =>
    intro seen
    rw [runLoop_cons]
    rcases runCycle_shape env seen with ⟨mid, hm, hq⟩
    rw [hm]
    have : Event.query :: mid ++ [Event.sleep POLL_INTERVAL] ++
        (runLoop rest (runCycle env seen).1).2 =
        Event.query :: mid ++ Event.sleep POLL_INTERVAL ::
          (runLoop rest (runCycle env seen).1).2 := by
      simp
    rw [this]
    exact CycleShapedTrace.cons mid _ hq (ih (runCycle env seen).1)

lemma shaped_sleep_between {tr : List Event} (h : CycleShapedTrace tr) :
    sleepBetweenQueries tr := by
  induction h with
  | nil =>
    intro a b c habc
    exact absurd habc.symm (by simp)
  | cons mid rest hq hrest ih =>
    intro a b c habc
    have hnq : Event.query ∉ mid ++ [Event.sleep POLL_INTERVAL] := by
      simp [hq]
    cases a with
    | nil =>
      simp at habc
      have h2 : (mid ++ [Event.sleep POLL_INTERVAL]) ++ rest =
          b ++ Event.query :: c := by
        simpa using habc
      rcases split_append_cons Event.query b _ _ c h2 with ⟨u, hu⟩ | ⟨v, hv1, hv2⟩
      · exact absurd (by rw [hu]; simp : Event.query ∈ mid ++ [Event.sleep POLL_INTERVAL]) hnq
      · rw [hv1]
        simp
    | cons a0 a =>
      simp at habc
      have h2 : (mid ++ [Event.sleep POLL_INTERVAL]) ++ rest =
          a ++ Event.query :: (b ++ Event.query :: c) := by
        simpa using habc.2
      rcases split_append_cons Event.query a _ _ (b ++ Event.query :: c) h2 with
        ⟨u, hu⟩ | ⟨v, hv1, hv2⟩
      · exact absurd (by rw [hu]; simp : Event.query ∈ mid ++ [Event.sleep POLL_INTERVAL]) hnq
      · exact ih v b c hv2

lemma filter_post_to_slack (d : String → Except String Unit) (text : String)
    (p : Event → Bool) (hp : ∀ m, p (Event.logWarn m) = false) :
    (post_to_slack d text).filter p = [] := by
  rcases post_to_slack_shape d text with hs | ⟨w, hs⟩ <;> simp [hs, List.filter_cons, hp]

lemma processItems_deliver_indep (f : Nat → Except String Detail)
    (d1 d2 : String → Except String Unit) (p : Event → Bool)
    (hp : ∀ m, p (Event.logWarn m) = false) :
    ∀ (items : List Nat) (seen : Finset Nat),
      (processItems f d1 items seen).2 = (processItems f d2 items seen).2 ∧
      (processItems f d1 items seen).1.filter p =
        (processItems f d2 items seen).1.filter p := by
  intro items
  induction items with
  | nil => intro seen; simp [processItems]
  | cons w0 rest ih =>
    intro seen
    by_cases h0 : w0 ∈ seen
    · rw [processItems_cons_seen h0, processItems_cons_seen h0]
      exact ih seen
    · cases hf : f w0 with
      | error er =>
        rw [processItems_cons_err h0 hf, processItems_cons_err h0 hf]
        exact ⟨rfl, rfl⟩
      | ok dt =>
        rw [processItems_cons_ok h0 hf, processItems_cons_ok h0 hf]
        refine ⟨(ih (insert w0 seen)).1, ?_⟩
        simp only [List.filter_cons, List.filter_append,
          filter_post_to_slack d1 _ p hp, filter_post_to_slack d2 _ p hp,
          (ih (insert w0 seen)).2]

lemma runCycle_deliver_indep (q : Except String (List Nat))
    (f : Nat → Except String Detail) (d1 d2 : String → Except String Unit)
    (seen : Finset Nat) (p : Event → Bool) (hp : ∀ m, p (Event.logWarn m) = false) :
    (runCycle ⟨q, f, d1⟩ seen).1 = (runCycle ⟨q, f, d2⟩ seen).1 ∧
    (runCycle ⟨q, f, d1⟩ seen).2.filter p = (runCycle ⟨q, f, d2⟩ seen).2.filter p := by
  cases q with
  | error e =>
    rw [runCycle_err seen rfl, runCycle_err seen rfl]
    exact ⟨rfl, rfl⟩
  | ok items =>
    have hind := processItems_deliver_indep f d1 d2 p hp items seen
    have htup : (processItems f d1 items seen).2 = (processItems f d2 items seen).2 := hind.1
    cases h2 : (processItems f d1 items seen).2.2 with
    | none =>
      have h2b : (processItems f d2 items seen).2.2 = none := by rw [← htup]; exact h2
      rw [runCycle_ok_none seen rfl h2, runCycle_ok_none seen rfl h2b]
      constructor
      · show (processItems f d1 items seen).2.1 = (processItems f d2 items seen).2.1
        rw [htup]
      · simp only [List.filter_cons, List.filter_append, hind.2]
    | some pe =>
      have h2b : (processItems f d2 items seen).2.2 = some pe := by rw [← htup]; exact h2
      rw [runCycle_ok_some seen rfl h2, runCycle_ok_some seen rfl h2b]
      constructor
      · show (processItems f d1 items seen).2.1 = (processItems f d2 items seen).2.1
        rw [htup]
      · simp only [List.filter_cons, List.filter_append, hind.2]

/-! ## Claim theorems -/

/-- C1: in every poll cycle, an id already in the seen set is never handed
to the notifier; an id that is notified had been added to the seen set
strictly before the notification event in the cycle's trace, and it is a
member of the seen set the cycle returns. The closing conjunct shows the
add-before-notify order on a concrete cycle. -/
theorem c1_seen_set_gates_notification :
    (∀ (env : CycleEnv) (seen : Finset Nat) (wid : Nat) (text : String),
      wid ∈ seen → Event.notify wid text ∉ (runCycle env seen).2) ∧
    (∀ (env : CycleEnv) (seen : Finset Nat) (wid : Nat) (text : String)
      (t1 t2 : List Event),
      (runCycle env seen).2 = t1 ++ Event.notify wid text :: t2 →
      Event.addSeen wid ∈ t1) ∧
    (∀ (env : CycleEnv) (seen : Finset Nat) (wid : Nat) (text : String),
      Event.notify wid text ∈ (runCycle env seen).2 → wid ∈ (runCycle env seen).1) ∧
    (runCycle envTwoItems {101}).2 =
      [Event.query, Event.addSeen 102, Event.fetchItem 102,
       Event.notify 102 (slackText 102 demoDetail), Event.sleep POLL_INTERVAL] := by
  refine ⟨?_, ?_, ?_, by decide⟩
  · intro env seen wid text hw
    exact runCycle_no_notify_of_seen env seen wid text hw
  · intro env seen wid text t1 t2 h
    exact runCycle_notify_after_add env seen wid text t1 t2 h
  · intro env seen wid text h
    exact runCycle_notify_mem_seen env seen wid text h

/-- C2: with at least one usable area path configured, the predicate is
exactly the per-entry clauses (UNDER for includeChildren true, = for
false) joined with " OR " inside one pair of parentheses; the single-entry
scenario yields the exact literal string of the claim. -/
theorem c2_area_predicate_clause_shape :
    (∀ values : List TeamFieldValue, (∃ v ∈ values, specClause v ≠ none) →
      get_team_area_predicate values =
        "(" ++ String.intercalate " OR " (values.filterMap specClause) ++ ")") ∧
    get_team_area_predicate [⟨some "Proj\\Team", some true⟩] =
      "([System.AreaPath] UNDER 'Proj\\Team')" := by
  constructor
  · rintro values ⟨v, hv, hc⟩
    obtain ⟨c, hc2⟩ := Option.ne_none_iff_exists'.mp hc
    have hne : values ≠ [] := List.ne_nil_of_mem hv
    have hparts : values.filterMap specClause ≠ [] :=
      List.ne_nil_of_mem (List.mem_filterMap.mpr ⟨v, hv, hc2⟩)
    unfold get_team_area_predicate
    simp [hne, buildParts_eq_filterMap, hparts]
  · decide

/-- C3: with no configured values, or none with a usable path, the
builder returns the project-scoped fallback clause, and on every input
whatsoever the result is a non-empty string. -/
theorem c3_area_predicate_fallback :
    (∀ values : List TeamFieldValue,
      (values = [] ∨ ∀ v ∈ values, specClause v = none) →
      get_team_area_predicate values = projectFallback) ∧
    (∀ values : List TeamFieldValue, get_team_area_predicate values ≠ "") ∧
    projectFallback = "[System.TeamProject] = 'OmniStack'" := by
  refine ⟨?_, pred_ne_empty, by decide⟩
  intro values h
  rcases h with h | h
  · simp [get_team_area_predicate, h]
  · have hparts : buildParts values = [] := by
      rw [buildParts_eq_filterMap]
      exact List.filterMap_eq_nil_iff.mpr h
    unfold get_team_area_predicate
    by_cases hv : values = [] <;> simp [hv, hparts]

/-- C4: across two consecutive cycles over the same environment, each id
is notified at most once; in the concrete scenario with ids 101 and 102
and 101 already seen, only 102 is fetched and notified, the seen set
becomes the set holding 101 and 102, and the second cycle adds no further
notification. -/
theorem c4_at_most_one_notification_per_id :
    (∀ (env : CycleEnv) (seen : Finset Nat) (wid : Nat),
      notifyCount wid (runLoop [env, env] seen).2 ≤ 1) ∧
    (runCycle envTwoItems {101}).1 = {101, 102} ∧
    (runCycle envTwoItems {101}).2.filter isFetch = [Event.fetchItem 102] ∧
    (runCycle envTwoItems {101}).2.filter isNotify =
      [Event.notify 102 (slackText 102 demoDetail)] ∧
    (runLoop [envTwoItems, envTwoItems] {101}).2.filter isNotify =
      [Event.notify 102 (slackText 102 demoDetail)] := by
  refine ⟨?_, by decide, by decide, by decide, by decide⟩
  intro env seen wid
  exact (runLoop_notifyCount [env, env] seen wid).1

/-- C5: a query error is caught, logged and leaves the seen set unchanged;
a fetch error is caught and logged, and every remaining unvisited id that
was not seen and not among the already visited ids stays outside the seen
set; every scheduled cycle of a run executes its query, whatever earlier
cycles did. The closing conjuncts evaluate erroring cycles concretely. -/
theorem c5_cycle_errors_caught_loop_continues :
    (∀ (env : CycleEnv) (seen : Finset Nat) (e : String),
      env.queryResult = .error e →
      runCycle env seen =
        (seen, [.query, .logError ("[error] " ++ e), .sleep POLL_INTERVAL])) ∧
    (∀ (env : CycleEnv) (seen : Finset Nat) (items : List Nat) (e : String)
      (rem : List Nat),
      env.queryResult = .ok items →
      (processItems env.fetch env.deliver items seen).2.2 = some (e, rem) →
      ∃ pre, items = pre ++ rem ∧
        (runCycle env seen).1 ⊆ seen ∪ pre.toFinset ∧
        (∀ x, x ∈ rem → x ∉ seen → x ∉ pre → x ∉ (runCycle env seen).1) ∧
        Event.logError ("[error] " ++ e) ∈ (runCycle env seen).2) ∧
    (∀ (envs : List CycleEnv) (seen : Finset Nat),
      (runLoop envs seen).2.countP isQuery = envs.length) ∧
    runCycle envQueryError {5} =
      ({5}, [Event.query, Event.logError "[error] 503 Server Error",
        Event.sleep POLL_INTERVAL]) ∧
    (runCycle envFetchError ∅).1 = {7, 8} ∧
    (runLoop [envFetchError, envFetchError] ∅).2.countP isQuery = 2 := by
  refine ⟨?_, ?_, ?_, by decide, by decide, by decide⟩
  · intro env seen e hq
    exact runCycle_err seen hq
  · intro env seen items e rem hq h2
    rcases processItems_err_remainder items seen e rem h2 with ⟨pre, hpre, hsub⟩
    have hr := runCycle_ok_some seen hq h2
    refine ⟨pre, hpre, ?_, ?_, ?_⟩
    · rw [hr]
      exact hsub
    · intro x hxrem hxseen hxpre hxmem
      rw [hr] at hxmem
      have hx := hsub hxmem
      simp [Finset.mem_union, List.mem_toFinset] at hx
      tauto
    · rw [hr]
      simp
  · intro envs seen
    exact runLoop_queryCount envs seen

/-- C6: board and column resolution return the identifier of the unique
entry whose name equals the requested name exactly, and fail, when no
entry matches, with an error message listing the available names; the
concrete scenario resolves "Stories" to id 3 and rejects "Backlog" with
the listed name. -/
theorem c6_name_resolution_exact_match :
    (∀ (boards : List BoardEntry) (team nm : String) (b : BoardEntry),
      b ∈ boards → b.name = some nm → (∀ b2 ∈ boards, b2.name = some nm → b2 = b) →
      get_board_id_by_name boards team nm = .ok (b.id, nm)) ∧
    (∀ (boards : List BoardEntry) (team nm : String),
      (∀ b ∈ boards, b.name ≠ some nm) →
      get_board_id_by_name boards team nm =
        .error ("Board '" ++ nm ++ "' not found for team '" ++ team ++
          "'. Available: " ++ pyReprNameList (boards.map (fun b => b.name)))) ∧
    (∀ (cols : List BoardEntry) (bid : Nat) (nm : String) (c : BoardEntry),
      c ∈ cols → c.name = some nm → (∀ c2 ∈ cols, c2.name = some nm → c2 = c) →
      get_column_id_by_name cols bid nm = .ok (c.id, nm)) ∧
    (∀ (cols : List BoardEntry) (bid : Nat) (nm : String),
      (∀ c ∈ cols, c.name ≠ some nm) →
      get_column_id_by_name cols bid nm =
        .error ("Column '" ++ nm ++ "' not found on board id " ++ toString bid ++
          ". Available: " ++ pyReprNameList (cols.map (fun c => c.name)))) ∧
    get_board_id_by_name [⟨some "Stories", 3⟩] "WASP" "Stories" = .ok (3, "Stories") ∧
    get_board_id_by_name [⟨some "Stories", 3⟩] "WASP" "Backlog" =
      .error "Board 'Backlog' not found for team 'WASP'. Available: ['Stories']" := by
  refine ⟨?_, ?_, ?_, ?_, by rfl, by rfl⟩
  · intro boards team nm b hb hname huniq
    unfold get_board_id_by_name
    cases hfind : boards.find? (fun x => x.name == some nm) with
    | none =>
      have := List.find?_eq_none.mp hfind b hb
      simp [hname] at this
    | some b0 =>
      have hp : b0.name = some nm := by
        have := List.find?_some hfind
        simpa using this
      have hmem : b0 ∈ boards := List.mem_of_find?_eq_some hfind
      rw [huniq b0 hmem hp]
  · intro boards team nm h
    unfold get_board_id_by_name
    have hfind : boards.find? (fun x => x.name == some nm) = none := by
      apply List.find?_eq_none.mpr
      intro x hx
      simpa using h x hx
    rw [hfind]
  · intro cols bid nm c hc hname huniq
    unfold get_column_id_by_name
    cases hfind : cols.find? (fun x => x.name == some nm) with
    | none =>
      have := List.find?_eq_none.mp hfind c hc
      simp [hname] at this
    | some c0 =>
      have hp : c0.name = some nm := by
        have := List.find?_some hfind
        simpa using this
      have hmem : c0 ∈ cols := List.mem_of_find?_eq_some hfind
      rw [huniq c0 hmem hp]
  · intro cols bid nm h
    unfold get_column_id_by_name
    have hfind : cols.find? (fun x => x.name == some nm) = none := by
      apply List.find?_eq_none.mpr
      intro x hx
      simpa using h x hx
    rw [hfind]

/-- C7: a failed webhook delivery only produces a warning log line and
returns; the cycle's resulting seen set and its trace, warnings aside, do
not depend on the delivery oracle at all; in the concrete timeout
scenario the cycle completes without a cycle-level error, the item stays
seen, and the second cycle neither fetches nor notifies it again. -/
theorem c7_notifier_failure_contained :
    (∀ (d : String → Except String Unit) (text : String),
      post_to_slack d text = [] ∨
      ∃ w, post_to_slack d text = [Event.logWarn ("[warn] Slack post failed: " ++ w)]) ∧
    (∀ (q : Except String (List Nat)) (f : Nat → Except String Detail)
      (d1 d2 : String → Except String Unit) (seen : Finset Nat),
      (runCycle ⟨q, f, d1⟩ seen).1 = (runCycle ⟨q, f, d2⟩ seen).1) ∧
    (∀ (q : Except String (List Nat)) (f : Nat → Except String Detail)
      (d1 d2 : String → Except String Unit) (seen : Finset Nat) (p : Event → Bool),
      (∀ m, p (Event.logWarn m) = false) →
      (runCycle ⟨q, f, d1⟩ seen).2.filter p = (runCycle ⟨q, f, d2⟩ seen).2.filter p) ∧
    (runCycle envTimeout ∅).1 = {7} ∧
    (runCycle envTimeout ∅).2.countP isError = 0 ∧
    Event.logWarn "[warn] Slack post failed: timed out" ∈ (runCycle envTimeout ∅).2 ∧
    (runLoop [envTimeout, envTimeout] ∅).2.countP isQuery = 2 ∧
    (runLoop [envTimeout, envTimeout] ∅).2.filter isFetch = [Event.fetchItem 7] ∧
    (runLoop [envTimeout, envTimeout] ∅).2.filter isNotify =
      [Event.notify 7 (slackText 7 demoDetail)] := by
  refine ⟨?_, ?_, ?_, by decide, by decide, by decide, by decide, by decide, by decide⟩
  · intro d text
    exact post_to_slack_shape d text
  · intro q f d1 d2 seen
    exact (runCycle_deliver_indep q f d1 d2 seen (fun _ => false) (fun _ => rfl)).1
  · intro q f d1 d2 seen p hp
    exact (runCycle_deliver_indep q f d1 d2 seen p hp).2

/-- C8: for any response with a valid status code, an unsuccessful status
yields the error carrying the status and body, a successful status with
an empty body yields the empty object, and a successful status with a
body yields the parsed JSON; one concrete response per branch. -/
theorem c8_request_error_and_body_handling :
    (∀ r : HttpResponse, r.status < 600 →
      (400 ≤ r.status → _request r = .error ⟨r.status, r.content⟩) ∧
      (r.status < 400 → r.content = "" → _request r = .ok (Json.obj [])) ∧
      (r.status < 400 → r.content ≠ "" → _request r = .ok r.json)) ∧
    _request ⟨404, "not found body", Json.null⟩ = .error ⟨404, "not found body"⟩ ∧
    _request ⟨204, "", Json.null⟩ = .ok (Json.obj []) ∧
    _request ⟨200, "x", Json.str "parsed"⟩ = .ok (Json.str "parsed") := by
  refine ⟨?_, by rfl, by rfl, by rfl⟩
  intro r hv
  refine ⟨?_, ?_, ?_⟩
  · intro h4
    simp [_request, raise_for_status, h4, hv, bind, Except.bind]
  · intro h4 hc
    simp [_request, raise_for_status, Nat.not_le.mpr h4, hc, bind, Except.bind, pure,
      Except.pure]
  · intro h4 hc
    simp [_request, raise_for_status, Nat.not_le.mpr h4, hc, bind, Except.bind, pure,
      Except.pure]

/-- C9: an entry with a usable path whose includeChildren key is absent is
treated as includeChildren false and yields the exact-match clause — as
does an explicit false — while UNDER is emitted only for an explicit
true. -/
theorem c9_missing_includeChildren_means_exact :
    (∀ path : String, path ≠ "" →
      get_team_area_predicate [⟨some path, none⟩] = "(" ++ eqClause path ++ ")") ∧
    (∀ (path : String) (rest : List TeamFieldValue), path ≠ "" →
      buildParts (⟨some path, none⟩ :: rest) = eqClause path :: buildParts rest ∧
      buildParts (⟨some path, some false⟩ :: rest) = eqClause path :: buildParts rest ∧
      buildParts (⟨some path, some true⟩ :: rest) = underClause path :: buildParts rest) := by
  constructor
  · intro path hp
    unfold get_team_area_predicate
    simp [buildParts, hp, intercalate_single]
  · intro path rest hp
    refine ⟨?_, ?_, ?_⟩ <;> simp [buildParts, hp]

/-- C10: every cycle's trace, erroring or not, ends with the
poll-interval sleep, and in any run two query executions always have a
poll-interval sleep strictly between them; the closing conjunct shows a
run of two erroring cycles sleeping after each. -/
theorem c10_sleep_ends_every_cycle :
    (∀ (env : CycleEnv) (seen : Finset Nat),
      (runCycle env seen).2.getLast? = some (Event.sleep POLL_INTERVAL)) ∧
    (∀ (envs : List CycleEnv) (seen : Finset Nat),
      sleepBetweenQueries (runLoop envs seen).2) ∧
    (runLoop [envQueryError, envQueryError] ∅).2 =
      [Event.query, Event.logError "[error] 503 Server Error", Event.sleep POLL_INTERVAL,
       Event.query, Event.logError "[error] 503 Server Error",
       Event.sleep POLL_INTERVAL] := by
  refine ⟨?_, ?_, by decide⟩
  · intro env seen
    rcases runCycle_shape env seen with ⟨mid, hm, -⟩
    rw [hm, List.getLast?_concat]
  · intro envs seen
    exact shaped_sleep_between (runLoop_shape envs seen)

end BotSlack
